import Mathlib

/-!
Formal model of the tap-exchangeratesapi incremental sync engine
(src/tap-exchangeratesapi/__init__.py), as a shallow embedding.

Python dicts are modelled as insertion-ordered association lists.
Floating-point rate values are modelled as exact rationals; the Python
built-in round with two digits is modelled as round-half-to-even at two
decimal places, which agrees with the Python result on every rate value
appearing below.  Network effects are modelled by an oracle mapping a
request URL to the outcome of the HTTP GET issued for it.
-/

namespace Tap

/-- A JSON-ish value stored in an emitted record: a number or a string. -/
inductive JVal where
  | num : ℚ → JVal
  | str : String → JVal
deriving DecidableEq

/-- A calendar date, as carried by the date strings of the tap. -/
structure Date where
  year : Nat
  month : Nat
  day : Nat
deriving DecidableEq

/-- Gregorian leap-year test, as in the proleptic calendar used by
Python datetime. -/
def isLeap (y : Nat) : Bool :=
  (y % 4 == 0 && y % 100 != 0) || (y % 400 == 0)

/-- Number of days of month m of year y (months are 1-based). -/
def daysInMonth (y m : Nat) : Nat :=
  if m == 2 then (if isLeap y then 29 else 28)
  else if m == 4 || m == 6 || m == 9 || m == 11 then 30
  else 31

/-- The following calendar day: models adding timedelta of one day to a
parsed date, line 96 of the source. -/
def Date.next (d : Date) : Date :=
  if d.day < daysInMonth d.year d.month then ⟨d.year, d.month, d.day + 1⟩
  else if d.month < 12 then ⟨d.year, d.month + 1, 1⟩
  else ⟨d.year + 1, 1, 1⟩

/-- A date is valid when its year is positive (datetime accepts years
from 1) and its month and day are in calendar range. -/
def Date.Valid (d : Date) : Prop :=
  1 ≤ d.year ∧ 1 ≤ d.month ∧ d.month ≤ 12 ∧ 1 ≤ d.day ∧ d.day ≤ daysInMonth d.year d.month

instance (d : Date) : Decidable d.Valid := by
  unfold Date.Valid; infer_instance

/-- Total days of months 1..m of year y. -/
def monthDaysUpTo (y : Nat) : Nat → Nat
  | 0 => 0
  | m + 1 => monthDaysUpTo y m + daysInMonth y (m + 1)

/-- Number of leap years in 1..y. -/
def leapsUpTo (y : Nat) : Nat := y / 4 - y / 100 + y / 400

/-- Chronological index of a date (a rata-die style day count); datetime
comparison in the loop guard is comparison of these indices. -/
def Date.toDays (d : Date) : Nat :=
  365 * (d.year - 1) + leapsUpTo (d.year - 1) + monthDaysUpTo d.year (d.month - 1) + d.day

/-- The decimal digit character for n below 10. -/
def digitChar : Nat → Char
  | 0 => '0' | 1 => '1' | 2 => '2' | 3 => '3' | 4 => '4'
  | 5 => '5' | 6 => '6' | 7 => '7' | 8 => '8' | _ => '9'

/-- Numeric value of a decimal digit character. -/
def dval (c : Char) : Nat := c.toNat - 48

/-- Two-digit zero-padded rendering, as strftime does for month and day. -/
def pad2 (n : Nat) : String := ⟨[digitChar (n / 10 % 10), digitChar (n % 10)]⟩

/-- Four-digit rendering of a year in 1000..9999, as strftime does. -/
def pad4 (n : Nat) : String :=
  ⟨[digitChar (n / 1000 % 10), digitChar (n / 100 % 10), digitChar (n / 10 % 10),
    digitChar (n % 10)]⟩

/-- ISO rendering of a date, as strftime with the DATE_FORMAT pattern of
the source produces for four-digit years. -/
def Date.format (d : Date) : String :=
  pad4 d.year ++ "-" ++ pad2 d.month ++ "-" ++ pad2 d.day

/-- Models time.strptime with the DATE_FORMAT pattern: ten characters,
digit groups separated by dashes, month in 1..12 and day in 1..31 (the
strptime regular expression checks exactly these ranges). -/
def parseDate (s : String) : Option Date :=
  match s.data with
  | [y1, y2, y3, y4, s1, m1, m2, s2, d1, d2] =>
    if (y1.isDigit && y2.isDigit && y3.isDigit && y4.isDigit
        && (s1 == '-') && m1.isDigit && m2.isDigit && (s2 == '-')
        && d1.isDigit && d2.isDigit) then
      let y := dval y1 * 1000 + dval y2 * 100 + dval y3 * 10 + dval y4
      let m := dval m1 * 10 + dval m2
      let d := dval d1 * 10 + dval d2
      if 1 ≤ m ∧ m ≤ 12 ∧ 1 ≤ d ∧ d ≤ 31 then some ⟨y, m, d⟩ else none
    else none
  | _ => none

/-- Round a rational to the nearest integer, ties to even: the rounding
mode of the Python built-in round.  Computed on numerator and
denominator with integer floor division so that it evaluates by kernel
reduction; pyRound_eq_spec below proves it equal to the textbook
floor-and-fractional-part description. -/
def pyRound (q : ℚ) : ℤ :=
  let d : ℤ := (q.den : ℤ)
  let f : ℤ := q.num / d
  let r2 : ℤ := 2 * (q.num - f * d)
  if r2 < d then f
  else if d < r2 then f + 1
  else if f % 2 = 0 then f else f + 1

/-- Reference description of pyRound via floor and fractional part. -/
def pyRoundSpec (q : ℚ) : ℤ :=
  if Int.fract q < 1 / 2 then ⌊q⌋
  else if 1 / 2 < Int.fract q then ⌊q⌋ + 1
  else if ⌊q⌋ % 2 = 0 then ⌊q⌋ else ⌊q⌋ + 1

/-- Models round(v, 2) of the source, line 79: half-even rounding at two
decimal places; round2_eq_spec below restates it as division by 100
after half-even rounding of 100 times the value. -/
def round2 (q : ℚ) : ℚ := mkRat (pyRound (mkRat (100 * q.num) q.den)) 100

/-- Comparison of rate entries by rate value: the sort key of line 80. -/
def rateLe (a b : String × ℚ) : Prop := a.2 ≤ b.2

instance : DecidableRel rateLe := fun a b => inferInstanceAs (Decidable (a.2 ≤ b.2))

instance : IsTotal (String × ℚ) rateLe := ⟨fun a b => le_total a.2 b.2⟩

instance : IsTrans (String × ℚ) rateLe := ⟨fun _ _ _ hab hbc => le_trans hab hbc⟩

/-- Models lines 78-81 of the source: sort the rates dictionary by
ascending rate value (Python sorted is stable; insertion sort with this
relation is, too), then round every value to two decimal places. -/
def sortRates (l : List (String × ℚ)) : List (String × ℚ) :=
  (l.insertionSort rateLe).map (fun p => (p.1, round2 p.2))

/-- Python dict assignment d[k] = v on an association list: update the
value in place when the key is present, otherwise append the pair. -/
def dictInsert (l : List (String × α)) (k : String) (v : α) : List (String × α) :=
  if l.any (fun p => p.1 == k) then
    l.map (fun p => if p.1 == k then (k, v) else p)
  else l ++ [(k, v)]

/-- A decoded provider payload: base currency, date string and the rates
dictionary. -/
structure Payload where
  base : String
  date : String
  rates : List (String × ℚ)
deriving DecidableEq

/-- Models parse_response, lines 20-24: set the base currency rate to
exactly 1.0, then set the date key to the payload date re-rendered as a
midnight UTC timestamp.  Returns none when strptime fails. -/
def parse_response (r : Payload) : Option (List (String × JVal)) :=
  match parseDate r.date with
  | none => none
  | some d =>
    let flattened := r.rates.map (fun p => (p.1, JVal.num p.2))
    let f1 := dictInsert flattened r.base (JVal.num 1)
    some (dictInsert f1 "date" (JVal.str (Date.format d ++ "T00:00:00Z")))

/-- The record a loop iteration would emit for a payload: parse_response
applied after the sort-and-round step replaced the payload rates. -/
def emittedRecord (r : Payload) : Option (List (String × JVal)) :=
  parse_response { r with rates := sortRates r.rates }

/-- Property keys of the module-level schema at start, lines 27-30: only
the date field.  The schema is modelled by its ordered property-key
list; every non-date property carries the one fixed nullable-number type
descriptor, so dict equality of two schema snapshots is equality of
their key sets. -/
def schemaInit : List String := ["date"]

/-- Models the schema update loop, lines 84-86: append every rate key
not yet among the schema properties. -/
def updateProps (props : List String) (keys : List String) : List String :=
  keys.foldl (fun acc c => if c ∈ acc then acc else acc ++ [c]) props

/-- Key-set equality of two schema snapshots: Python dict equality
ignores insertion order, and all values are determined by the key. -/
def keySetEq (a b : List String) : Bool := a.all b.contains && b.all a.contains

/-- Models the comparison schema != prev_schema of line 88; none stands
for the initial empty prev_schema dict, which differs from every schema
value. -/
def schemaChanged (prev : Option (List String)) (props : List String) : Bool :=
  match prev with
  | none => true
  | some q => ! keySetEq q props

/-- Models giveup, lines 33-37: stop retrying exactly when the response
status is neither 429 nor a 5xx. -/
def giveup (status : Nat) : Bool := ! (status == 429 || decide (500 ≤ status))

/-- One backoff round for the decorated request function: k is the
1-based attempt index, statuses gives the HTTP status answered to each
attempt, remaining is the number of retries still allowed.
raise_for_status raises exactly for statuses of at least 400.  Returns
the total number of attempts made and whether the call succeeded.
Interval and jitter only affect timing and are not modelled. -/
def backoffGo (g : Nat → Bool) (statuses : Nat → Nat) : Nat → Nat → Nat × Bool
  | k, remaining =>
    let s := statuses k
    if s < 400 then (k, true)
    else if g s then (k, false)
    else
      match remaining with
      | 0 => (k, false)
      | r + 1 => backoffGo g statuses (k + 1) r

/-- Models request, lines 40-49: requests.get plus raise_for_status
under backoff.on_exception with the giveup predicate and max_tries 5
(one initial attempt plus at most four retries). -/
def request (statuses : Nat → Nat) : Nat × Bool := backoffGo giveup statuses 1 4

/-- Outcome of one requests.get call issued by the sync loop: a response
arrived (with its status and, when the body is valid JSON of the
expected shape, the decoded payload), or a RequestException was raised,
with or without a response object attached (connection-level faults
carry none). -/
inductive Fetch where
  | response (status : Nat) (body : Option Payload)
  | raisedWithResponse (status : Nat)
  | raisedNoResponse
deriving DecidableEq

/-- One singer output event: a schema declaration (by its property-key
list), a record, or a state write. -/
inductive Event where
  | schemaE : List String → Event
  | recordE : List (String × JVal) → Event
  | stateE : String → Event
deriving DecidableEq

/-- An uncaught Python exception ending the process abnormally:
json decoding of an invalid body, attribute access on a None response
object inside the except handler, or a strptime failure in
parse_response. -/
inductive PyErr where
  | jsonDecode
  | attrNone
  | strptimeError
deriving DecidableEq

/-- How the run ended: falling off main normally, a sys.exit with the
given code, or an uncaught exception. -/
inductive Exit where
  | normal
  | exitCode (code : Int)
  | uncaught (e : PyErr)
deriving DecidableEq

/-- Observable result of a run: the GET URLs issued in order, the singer
events written in order, and the way the process ended.  The outcome is
none only when the step budget of the model was exhausted, which cannot
happen for valid start dates. -/
structure RunResult where
  urls : List String
  events : List Event
  outcome : Option Exit
deriving DecidableEq

/-- The state value of a state event, if it is one. -/
def stateOf : Event → Option String
  | .stateE s => some s
  | _ => none

/-- The record of a record event, if it is one. -/
def recOf : Event → Option (List (String × JVal))
  | .recordE r => some r
  | _ => none

/-- The last state value written during a run, i.e. the checkpoint that
ends up persisted. -/
def finalState (evs : List Event) : Option String := (evs.filterMap stateOf).getLast?

/-- All records written during a run, in order. -/
def recordsOf (evs : List Event) : List (List (String × JVal)) := evs.filterMap recOf

/-- The provider endpoint root, line 12 of the source. -/
def base_url : String := "https://api.apilayer.com/fixer/"

/-- The GET URL built for one day, line 67 of the source. -/
def mkUrl (d : Date) (base : String) : String :=
  base_url ++ Date.format d ++ "?base=" ++ base

/-- Step budget of the loop model: one step per calendar day from start
to now inclusive. -/
def fuelFor (start now : Date) : Nat := now.toDays + 1 - start.toDays

/-- Models the sync while loop of do_sync, lines 61-97, plus the except
handler of lines 99-104 and the final write_state of line 106.  One
unfolding is one loop iteration: build the URL, issue the GET, decode
the JSON body (before the status check), exit with code 1 on a non-200
status, sort and round the rates, grow the schema, write the schema when
it changed, write the record when the payload date echoes the requested
day, set the state cursor to the current day and advance one day.  A
RequestException with a response attached reaches the handler, which
writes the state and exits with code -1; without a response the logging
line of the handler itself raises, so nothing is written.  When the
guard fails, the final state is written and the run ends normally. -/
def syncLoopAux (base : String) (fetch : String → Fetch) (now : Date) (fuel : Nat)
    (cur : Date) (props : List String) (prev : Option (List String)) (st : String) :
    RunResult :=
  if cur.toDays ≤ now.toDays then
    match fuel with
    | 0 => ⟨[], [], none⟩
    | fuel + 1 =>
      let url := mkUrl cur base
      match fetch url with
      | .raisedNoResponse => ⟨[url], [], some (.uncaught .attrNone)⟩
      | .raisedWithResponse _ => ⟨[url], [.stateE st], some (.exitCode (-1))⟩
      | .response status body =>
        match body with
        | none => ⟨[url], [], some (.uncaught .jsonDecode)⟩
        | some payload =>
          if status ≠ 200 then ⟨[url], [], some (.exitCode 1)⟩
          else
            let sorted := sortRates payload.rates
            let props' := updateProps props (sorted.map Prod.fst)
            let schemaEvs := if schemaChanged prev props' then [Event.schemaE props'] else []
            let recRes : Option (List Event) :=
              if payload.date == Date.format cur then
                match parse_response { payload with rates := sorted } with
                | none => none
                | some r => some [Event.recordE r]
              else some []
            match recRes with
            | none => ⟨[url], schemaEvs, some (.uncaught .strptimeError)⟩
            | some recEvs =>
              let rest := syncLoopAux base fetch now fuel cur.next props' (some props')
                (Date.format cur)
              ⟨url :: rest.urls, schemaEvs ++ recEvs ++ rest.events, rest.outcome⟩
  else ⟨[], [.stateE st], some .normal⟩

/-- Models do_sync, lines 52-107: exit with code 1 before any network
activity when the api key is falsy (absent or empty), otherwise run the
day-stepping loop from the start date with the initial schema, an empty
prev_schema and the start date as the initial state cursor. -/
def do_sync (base : String) (start now : Date) (api_key : Option String)
    (fetch : String → Fetch) : RunResult :=
  if api_key = none ∨ api_key = some "" then ⟨[], [], some (.exitCode 1)⟩
  else syncLoopAux base fetch now (fuelFor start now) start schemaInit none
    (Date.format start)

/-- The provider payload of the worked example in the spec: base EUR,
USD at 1.1 and JPY at 160.555 for 2024-01-01. -/
def examplePayload : Payload :=
  { base := "EUR", date := "2024-01-01",
    rates := [("USD", mkRat 11 10), ("JPY", mkRat 32111 200)] }

/-- The record the model emits for examplePayload, in construction
order: sorted rounded rates, then the base currency at one, then the
timestamp. -/
def exampleRecord : List (String × JVal) :=
  [("USD", .num (mkRat 11 10)), ("JPY", .num (mkRat 16056 100)),
   ("EUR", .num 1), ("date", .str "2024-01-01T00:00:00Z")]

/-- The expected record exactly as the spec example writes it. -/
def claimedRecord : List (String × JVal) :=
  [("date", .str "2024-01-01T00:00:00Z"), ("USD", .num 1.1),
   ("JPY", .num 160.56), ("EUR", .num 1.0)]

/-- Oracle answering every GET with status 200 and the example payload. -/
def fetchOkEx : String → Fetch := fun _ => .response 200 (some examplePayload)

/-- Oracle answering every GET with status 404 and a decodable body. -/
def fetch404 : String → Fetch := fun _ => .response 404 (some examplePayload)

/-- Oracle answering every GET with status 503 and a decodable body. -/
def fetch503 : String → Fetch := fun _ => .response 503 (some examplePayload)

/-- Oracle raising a RequestException that carries a response object. -/
def fetchRaisedResp : String → Fetch := fun _ => .raisedWithResponse 500

/-- Oracle answering every GET with status 500 and an undecodable body. -/
def fetchBadBody : String → Fetch := fun _ => .response 500 none

/-- The numeric value of a record entry, when it is a number. -/
def numOf (p : String × JVal) : Option ℚ :=
  match p.2 with
  | .num q => some q
  | .str _ => none

/-- Schema property keys after the update loop of lines 84-86 has
processed a sequence of days, each day given by its rate key list. -/
def schemaAfterDays (init : List String) (days : List (List String)) : List String :=
  days.foldl updateProps init

lemma pyRound_eq_spec (q : ℚ) : pyRound q = pyRoundSpec q := by
  have hdenq : (0 : ℚ) < (q.den : ℚ) := by exact_mod_cast q.den_pos
  have hf : q.num / (q.den : ℤ) = ⌊q⌋ := (Rat.floor_def).symm
  have key : q * (q.den : ℚ) = (q.num : ℚ) := by
    have h := Rat.num_div_den q
    rw [div_eq_iff (ne_of_gt hdenq)] at h
    linarith [h]
  have hfd : Int.fract q * (q.den : ℚ) = (q.num : ℚ) - (⌊q⌋ : ℚ) * (q.den : ℚ) := by
    have hfr : Int.fract q = q - (⌊q⌋ : ℚ) := rfl
    calc Int.fract q * (q.den : ℚ) = q * (q.den : ℚ) - (⌊q⌋ : ℚ) * (q.den : ℚ) := by
          rw [hfr]; ring
    _ = (q.num : ℚ) - (⌊q⌋ : ℚ) * (q.den : ℚ) := by rw [key]
  have hA : (2 * (q.num - ⌊q⌋ * (q.den : ℤ)) < (q.den : ℤ)) ↔ Int.fract q < 1 / 2 := by
    constructor <;> intro h
    · have hq : 2 * ((q.num : ℚ) - (⌊q⌋ : ℚ) * (q.den : ℚ)) < (q.den : ℚ) := by
        exact_mod_cast h
      by_contra hc
      push_neg at hc
      have h1 : (1 / 2 : ℚ) * (q.den : ℚ) ≤ Int.fract q * (q.den : ℚ) :=
        mul_le_mul_of_nonneg_right hc (le_of_lt hdenq)
      rw [hfd] at h1
      linarith
    · have h1 : Int.fract q * (q.den : ℚ) < (1 / 2 : ℚ) * (q.den : ℚ) :=
        mul_lt_mul_of_pos_right h hdenq
      rw [hfd] at h1
      have hq : 2 * ((q.num : ℚ) - (⌊q⌋ : ℚ) * (q.den : ℚ)) < (q.den : ℚ) := by linarith
      exact_mod_cast hq
  have hB : ((q.den : ℤ) < 2 * (q.num - ⌊q⌋ * (q.den : ℤ))) ↔ 1 / 2 < Int.fract q := by
    constructor <;> intro h
    · have hq : (q.den : ℚ) < 2 * ((q.num : ℚ) - (⌊q⌋ : ℚ) * (q.den : ℚ)) := by
        exact_mod_cast h
      by_contra hc
      push_neg at hc
      have h1 : Int.fract q * (q.den : ℚ) ≤ (1 / 2 : ℚ) * (q.den : ℚ) :=
        mul_le_mul_of_nonneg_right hc (le_of_lt hdenq)
      rw [hfd] at h1
      linarith
    · have h1 : (1 / 2 : ℚ) * (q.den : ℚ) < Int.fract q * (q.den : ℚ) :=
        mul_lt_mul_of_pos_right h hdenq
      rw [hfd] at h1
      have hq : (q.den : ℚ) < 2 * ((q.num : ℚ) - (⌊q⌋ : ℚ) * (q.den : ℚ)) := by linarith
      exact_mod_cast hq
  simp only [pyRound, pyRoundSpec, hf]
  split_ifs <;> first | rfl | tauto

lemma pyRoundSpec_mono {a b : ℚ} (h : a ≤ b) : pyRoundSpec a ≤ pyRoundSpec b := by
  have hfl : ⌊a⌋ ≤ ⌊b⌋ := Int.floor_mono h
  rcases eq_or_lt_of_le hfl with hfe | hlt
  · have hfr : Int.fract a ≤ Int.fract b := by
      have ha : Int.fract a = a - (⌊a⌋ : ℚ) := rfl
      have hb : Int.fract b = b - (⌊b⌋ : ℚ) := rfl
      rw [ha, hb, ← hfe]
      have : ((⌊a⌋ : ℚ)) = ((⌊a⌋ : ℚ)) := rfl
      linarith
    unfold pyRoundSpec
    split_ifs <;> first | omega | linarith
  · unfold pyRoundSpec
    split_ifs <;> omega

lemma round2_eq_spec (q : ℚ) : round2 q = ((pyRoundSpec (100 * q) : ℤ) : ℚ) / 100 := by
  have hx : (mkRat (100 * q.num) q.den : ℚ) = 100 * q := by
    rw [Rat.mkRat_eq_div]
    push_cast
    rw [mul_div_assoc, Rat.num_div_den]
  rw [round2, Rat.mkRat_eq_div, pyRound_eq_spec, hx]
  norm_num

lemma round2_mono {a b : ℚ} (h : a ≤ b) : round2 a ≤ round2 b := by
  rw [round2_eq_spec, round2_eq_spec]
  have hm : pyRoundSpec (100 * a) ≤ pyRoundSpec (100 * b) :=
    pyRoundSpec_mono (by linarith)
  have hc : ((pyRoundSpec (100 * a) : ℤ) : ℚ) ≤ ((pyRoundSpec (100 * b) : ℤ) : ℚ) := by
    exact_mod_cast hm
  linarith

lemma mem_dictInsert_self (l : List (String × α)) (k : String) (v : α) :
    (k, v) ∈ dictInsert l k v := by
  unfold dictInsert
  split
  · rename_i h
    rw [List.any_eq_true] at h
    obtain ⟨p, hp, hpe⟩ := h
    rw [List.mem_map]
    exact ⟨p, hp, by simp [hpe]⟩
  · exact List.mem_append_right _ (by simp)

lemma mem_dictInsert_of_ne {l : List (String × α)} {a : String} {b : α}
    (h : (a, b) ∈ l) (k : String) (v : α) (hne : a ≠ k) : (a, b) ∈ dictInsert l k v := by
  unfold dictInsert
  split
  · rw [List.mem_map]
    exact ⟨(a, b), h, by simp [hne]⟩
  · exact List.mem_append_left _ h

lemma mem_of_mem_dictInsert {l : List (String × α)} {k : String} {v : α} {p : String × α}
    (h : p ∈ dictInsert l k v) : p ∈ l ∨ p = (k, v) := by
  unfold dictInsert at h
  split at h
  · rw [List.mem_map] at h
    obtain ⟨q, hq, hqe⟩ := h
    by_cases hk : (q.1 == k) = true
    · right
      rw [if_pos hk] at hqe
      exact hqe.symm
    · left
      rw [if_neg hk] at hqe
      exact hqe ▸ hq
  · rcases List.mem_append.mp h with h | h
    · left; exact h
    · right
      simpa using h

lemma filter_map_overwrite (l : List (String × α)) (k : String) (v : α)
    (q : String × α → Bool) (hq : ∀ p : String × α, p.1 = k → q p = false) :
    (l.map (fun p => if p.1 == k then (k, v) else p)).filter q = l.filter q := by
  induction l with
  | nil => rfl
  | cons p t ih =>
    simp only [List.map_cons]
    by_cases hk : (p.1 == k) = true
    · rw [if_pos hk]
      have h1 : ¬ (q (k, v) = true) := by simp [hq (k, v) rfl]
      have h2 : ¬ (q p = true) := by simp [hq _ (by simpa using hk)]
      simp only [List.filter_cons]
      rw [if_neg h1, if_neg h2, ih]
    · rw [if_neg hk]
      simp only [List.filter_cons]
      rw [ih]

lemma filter_dictInsert {l : List (String × α)} {k : String} {v : α} {q : String × α → Bool}
    (hq : ∀ p : String × α, p.1 = k → q p = false) :
    (dictInsert l k v).filter q = l.filter q := by
  unfold dictInsert
  split
  · exact filter_map_overwrite l k v q hq
  · rw [List.filter_append]
    have h1 : q (k, v) = false := hq (k, v) rfl
    simp [h1]

lemma sortRates_pairwise (l : List (String × ℚ)) :
    List.Pairwise (fun a b : String × ℚ => a.2 ≤ b.2) (sortRates l) := by
  unfold sortRates
  refine List.Pairwise.map _ (fun a b hab => ?_) (List.sorted_insertionSort rateLe l)
  exact round2_mono hab

lemma mem_sortRates {l : List (String × ℚ)} {p : String × ℚ} (h : p ∈ sortRates l) :
    ∃ v₀, (p.1, v₀) ∈ l ∧ p.2 = round2 v₀ := by
  unfold sortRates at h
  rw [List.mem_map] at h
  obtain ⟨q, hq, hqe⟩ := h
  refine ⟨q.2, ?_, ?_⟩
  · have hm : q ∈ l := (List.perm_insertionSort rateLe l).mem_iff.mp hq
    have : p.1 = q.1 := by rw [← hqe]
    rw [this]
    exact hm
  · rw [← hqe]

lemma sortRates_keys_perm (l : List (String × ℚ)) :
    List.Perm ((sortRates l).map Prod.fst) (l.map Prod.fst) := by
  unfold sortRates
  rw [List.map_map]
  have he : (Prod.fst ∘ fun p : String × ℚ => (p.1, round2 p.2)) = Prod.fst := rfl
  rw [he]
  exact (List.perm_insertionSort rateLe l).map _

lemma subset_step (props : List String) (k : String) :
    props ⊆ (if k ∈ props then props else props ++ [k]) := by
  split
  · exact fun a h => h
  · exact List.subset_append_left _ _

lemma subset_updateProps (props keys : List String) : props ⊆ updateProps props keys := by
  induction keys generalizing props with
  | nil => exact fun a h => h
  | cons a t ih =>
    exact fun x hx => ih _ (subset_step props a hx)

lemma mem_updateProps_of_mem_keys {k : String} {keys props : List String} (h : k ∈ keys) :
    k ∈ updateProps props keys := by
  induction keys generalizing props with
  | nil => cases h
  | cons a t ih =>
    rcases List.mem_cons.mp h with rfl | ht
    · refine subset_updateProps _ t ?_
      show k ∈ (if k ∈ props then props else props ++ [k])
      split
      · assumption
      · exact List.mem_append_right _ (by simp)
    · exact ih ht

lemma updateProps_eq_of_forall_mem {props keys : List String}
    (h : ∀ k ∈ keys, k ∈ props) : updateProps props keys = props := by
  induction keys with
  | nil => rfl
  | cons a t ih =>
    have ha : a ∈ props := h a (by simp)
    show updateProps (if a ∈ props then props else props ++ [a]) t = props
    rw [if_pos ha]
    exact ih fun k hk => h k (by simp [hk])

lemma keySetEq_true_iff {a b : List String} : keySetEq a b = true ↔ (a ⊆ b ∧ b ⊆ a) := by
  unfold keySetEq
  rw [Bool.and_eq_true, List.all_eq_true, List.all_eq_true]
  constructor
  · rintro ⟨h1, h2⟩
    constructor
    · intro x hx
      simpa using h1 x hx
    · intro x hx
      simpa using h2 x hx
  · rintro ⟨h1, h2⟩
    constructor
    · intro x hx
      simpa using h1 hx
    · intro x hx
      simpa using h2 hx

lemma syncLoopAux_stop {base : String} {fetch : String → Fetch} {now : Date} {fuel : Nat}
    {cur : Date} {props : List String} {prev : Option (List String)} {st : String}
    (h : ¬ (cur.toDays ≤ now.toDays)) :
    syncLoopAux base fetch now fuel cur props prev st = ⟨[], [.stateE st], some .normal⟩ := by
  unfold syncLoopAux
  rw [if_neg h]

lemma syncLoopAux_raisedResp {base : String} {fetch : String → Fetch} {now : Date} {fuel : Nat}
    {cur : Date} {props : List String} {prev : Option (List String)} {st : String} {s : Nat}
    (hle : cur.toDays ≤ now.toDays) (hf : fetch (mkUrl cur base) = .raisedWithResponse s) :
    syncLoopAux base fetch now (fuel + 1) cur props prev st =
      ⟨[mkUrl cur base], [.stateE st], some (.exitCode (-1))⟩ := by
  unfold syncLoopAux
  rw [if_pos hle]
  simp only [hf]

lemma syncLoopAux_noResp {base : String} {fetch : String → Fetch} {now : Date} {fuel : Nat}
    {cur : Date} {props : List String} {prev : Option (List String)} {st : String}
    (hle : cur.toDays ≤ now.toDays) (hf : fetch (mkUrl cur base) = .raisedNoResponse) :
    syncLoopAux base fetch now (fuel + 1) cur props prev st =
      ⟨[mkUrl cur base], [], some (.uncaught .attrNone)⟩ := by
  unfold syncLoopAux
  rw [if_pos hle]
  simp only [hf]

lemma syncLoopAux_badBody {base : String} {fetch : String → Fetch} {now : Date} {fuel : Nat}
    {cur : Date} {props : List String} {prev : Option (List String)} {st : String} {s : Nat}
    (hle : cur.toDays ≤ now.toDays) (hf : fetch (mkUrl cur base) = .response s none) :
    syncLoopAux base fetch now (fuel + 1) cur props prev st =
      ⟨[mkUrl cur base], [], some (.uncaught .jsonDecode)⟩ := by
  unfold syncLoopAux
  rw [if_pos hle]
  simp only [hf]

lemma syncLoopAux_non200 {base : String} {fetch : String → Fetch} {now : Date} {fuel : Nat}
    {cur : Date} {props : List String} {prev : Option (List String)} {st : String} {s : Nat}
    {p : Payload} (hle : cur.toDays ≤ now.toDays)
    (hf : fetch (mkUrl cur base) = .response s (some p)) (hs : s ≠ 200) :
    syncLoopAux base fetch now (fuel + 1) cur props prev st =
      ⟨[mkUrl cur base], [], some (.exitCode 1)⟩ := by
  unfold syncLoopAux
  rw [if_pos hle]
  simp only [hf]
  rw [if_pos hs]

lemma do_sync_some_key {base key : String} {start now : Date} {fetch : String → Fetch}
    (hk : key ≠ "") :
    do_sync base start now (some key) fetch =
      syncLoopAux base fetch now (fuelFor start now) start schemaInit none
        (Date.format start) := by
  unfold do_sync
  rw [if_neg]
  simp [hk]

lemma do_sync_no_key (base : String) (start now : Date) (fetch : String → Fetch) :
    do_sync base start now none fetch = ⟨[], [], some (.exitCode 1)⟩ := by
  unfold do_sync
  simp

lemma do_sync_empty_key (base : String) (start now : Date) (fetch : String → Fetch) :
    do_sync base start now (some "") fetch = ⟨[], [], some (.exitCode 1)⟩ := by
  unfold do_sync
  simp

lemma fuelFor_succ {start now : Date} (h : start.toDays ≤ now.toDays) :
    fuelFor start now = (now.toDays - start.toDays) + 1 := by
  unfold fuelFor
  omega

lemma do_sync_raisedResp {base key : String} {start now : Date} {fetch : String → Fetch}
    {s : Nat} (hk : key ≠ "") (hle : start.toDays ≤ now.toDays)
    (hf : fetch (mkUrl start base) = .raisedWithResponse s) :
    do_sync base start now (some key) fetch =
      ⟨[mkUrl start base], [.stateE (Date.format start)], some (.exitCode (-1))⟩ := by
  rw [do_sync_some_key hk, fuelFor_succ hle]
  exact syncLoopAux_raisedResp hle hf

lemma do_sync_noResp {base key : String} {start now : Date} {fetch : String → Fetch}
    (hk : key ≠ "") (hle : start.toDays ≤ now.toDays)
    (hf : fetch (mkUrl start base) = .raisedNoResponse) :
    do_sync base start now (some key) fetch =
      ⟨[mkUrl start base], [], some (.uncaught .attrNone)⟩ := by
  rw [do_sync_some_key hk, fuelFor_succ hle]
  exact syncLoopAux_noResp hle hf

lemma do_sync_badBody {base key : String} {start now : Date} {fetch : String → Fetch}
    {s : Nat} (hk : key ≠ "") (hle : start.toDays ≤ now.toDays)
    (hf : fetch (mkUrl start base) = .response s none) :
    do_sync base start now (some key) fetch =
      ⟨[mkUrl start base], [], some (.uncaught .jsonDecode)⟩ := by
  rw [do_sync_some_key hk, fuelFor_succ hle]
  exact syncLoopAux_badBody hle hf

lemma do_sync_non200 {base key : String} {start now : Date} {fetch : String → Fetch}
    {s : Nat} {p : Payload} (hk : key ≠ "") (hle : start.toDays ≤ now.toDays)
    (hf : fetch (mkUrl start base) = .response s (some p)) (hs : s ≠ 200) :
    do_sync base start now (some key) fetch =
      ⟨[mkUrl start base], [], some (.exitCode 1)⟩ := by
  rw [do_sync_some_key hk, fuelFor_succ hle]
  exact syncLoopAux_non200 hle hf hs

lemma getLast?_cons_ne {α : Type _} {l : List α} (h : l ≠ []) (a : α) :
    (a :: l).getLast? = l.getLast? := by
  cases l with
  | nil => exact absurd rfl h
  | cons b t => rfl

lemma finalState_append_of_nil {a b : List Event} (h : a.filterMap stateOf = []) :
    finalState (a ++ b) = finalState b := by
  unfold finalState
  rw [List.filterMap_append, h, List.nil_append]

lemma do_sync_urls_head {base key : String} {start now : Date} {fetch : String → Fetch}
    (hk : key ≠ "") (hle : start.toDays ≤ now.toDays) :
    (do_sync base start now (some key) fetch).urls.head? = some (mkUrl start base) := by
  rw [do_sync_some_key hk, fuelFor_succ hle]
  unfold syncLoopAux
  rw [if_pos hle]
  cases hf : fetch (mkUrl start base) with
  | raisedNoResponse => simp [hf]
  | raisedWithResponse s => simp [hf]
  | response s b =>
    cases b with
    | none => simp [hf]
    | some p =>
      by_cases hs : s ≠ 200
      · simp [hf, hs]
      · simp only [hf]
        rw [if_neg hs]
        split <;> simp

lemma syncLoop_normal_lastState {base : String} {fetch : String → Fetch} {now : Date} :
    ∀ (fuel : Nat) (cur : Date) (props : List String) (prev : Option (List String))
      (st : String) (urls : List String) (evs : List Event),
      syncLoopAux base fetch now fuel cur props prev st = ⟨urls, evs, some Exit.normal⟩ →
      (urls = [] ∧ finalState evs = some st) ∨
      (∃ d : Date, urls ≠ [] ∧ urls.getLast? = some (mkUrl d base) ∧
        finalState evs = some (Date.format d)) := by
  intro fuel
  induction fuel with
  | zero =>
    intro cur props prev st urls evs h
    unfold syncLoopAux at h
    split at h
    · exact absurd (congrArg RunResult.outcome h) (by simp)
    · injection h with h1 h2 h3
      left
      refine ⟨h1.symm, ?_⟩
      rw [← h2]
      rfl
  | succ n ih =>
    intro cur props prev st urls evs h
    unfold syncLoopAux at h
    split at h
    case isFalse =>
      injection h with h1 h2 h3
      left
      refine ⟨h1.symm, ?_⟩
      rw [← h2]
      rfl
    case isTrue hle =>
      simp only [] at h
      cases hf : fetch (mkUrl cur base) with
      | raisedNoResponse =>
        rw [hf] at h
        simp only [] at h
        exact absurd (congrArg RunResult.outcome h) (by simp)
      | raisedWithResponse s =>
        rw [hf] at h
        simp only [] at h
        exact absurd (congrArg RunResult.outcome h) (by simp)
      | response s b =>
        rw [hf] at h
        simp only [] at h
        split at h
        case h_1 => exact absurd (congrArg RunResult.outcome h) (by simp)
        case h_2 payload =>
          by_cases hs : s ≠ 200
          · rw [if_pos hs] at h
            exact absurd (congrArg RunResult.outcome h) (by simp)
          · rw [if_neg hs] at h
            set ps := updateProps props ((sortRates payload.rates).map Prod.fst) with hps
            set R := syncLoopAux base fetch now n cur.next ps (some ps) (Date.format cur)
              with hR
            split at h
            · exact absurd (congrArg RunResult.outcome h) (by simp)
            · rename_i recEvs hrec
              injection h with h1 h2 h3
              have hrecnil : recEvs.filterMap stateOf = [] := by
                split at hrec
                · split at hrec
                  · exact absurd hrec (by simp)
                  · injection hrec with hr
                    rw [← hr]
                    rfl
                · injection hrec with hr
                  rw [← hr]
                  rfl
              have hschnil :
                  (if schemaChanged prev ps then [Event.schemaE ps]
                    else []).filterMap stateOf = [] := by
                split <;> rfl
              have heq : syncLoopAux base fetch now n cur.next ps (some ps)
                  (Date.format cur) = ⟨R.urls, R.events, some Exit.normal⟩ := by
                rw [← hR, ← h3]
              rcases ih _ _ _ _ _ _ heq with ⟨hu, hfs⟩ | ⟨d, hne, hlast, hfs⟩
              · right
                refine ⟨cur, ?_, ?_, ?_⟩
                · rw [← h1]
                  simp
                · rw [← h1, hu]
                  rfl
                · rw [← h2, List.append_assoc, finalState_append_of_nil hschnil,
                    finalState_append_of_nil hrecnil]
                  exact hfs
              · right
                refine ⟨d, ?_, ?_, ?_⟩
                · rw [← h1]
                  simp
                · rw [← h1, getLast?_cons_ne hne]
                  exact hlast
                · rw [← h2, List.append_assoc, finalState_append_of_nil hschnil,
                    finalState_append_of_nil hrecnil]
                  exact hfs

lemma keySetEq_self (l : List String) : keySetEq l l = true :=
  keySetEq_true_iff.mpr ⟨fun _ hx => hx, fun _ hx => hx⟩

lemma schemaChanged_some_iff {props keys : List String} :
    schemaChanged (some props) (updateProps props keys) = true ↔ ∃ k ∈ keys, k ∉ props := by
  unfold schemaChanged
  rw [Bool.not_eq_true']
  constructor
  · intro h
    by_contra hc
    push_neg at hc
    rw [updateProps_eq_of_forall_mem hc, keySetEq_self] at h
    cases h
  · rintro ⟨k, hk, hkp⟩
    cases hb : keySetEq props (updateProps props keys)
    · rfl
    · exact absurd ((keySetEq_true_iff.mp hb).2 (mem_updateProps_of_mem_keys hk)) hkp

lemma schemaAfterDays_append (init : List String) (days : List (List String))
    (d : List String) :
    schemaAfterDays init (days ++ [d]) = updateProps (schemaAfterDays init days) d := by
  unfold schemaAfterDays
  rw [List.foldl_append]
  rfl

lemma emittedRecord_some_elim {r : Payload} {rec : List (String × JVal)}
    (h : emittedRecord r = some rec) :
    ∃ ts : String,
      rec = dictInsert
        (dictInsert ((sortRates r.rates).map (fun p => (p.1, JVal.num p.2)))
          r.base (JVal.num 1)) "date" (JVal.str ts) := by
  unfold emittedRecord parse_response at h
  split at h
  · exact absurd h (by simp)
  · rename_i d hd
    refine ⟨Date.format d ++ "T00:00:00Z", ?_⟩
    injection h with h1
    rw [← h1]

lemma mem_base_emittedRecord {r : Payload} {rec : List (String × JVal)}
    (h : emittedRecord r = some rec) (hbd : r.base ≠ "date") :
    (r.base, JVal.num 1) ∈ rec := by
  obtain ⟨ts, rfl⟩ := emittedRecord_some_elim h
  exact mem_dictInsert_of_ne (mem_dictInsert_self _ _ _) _ _ hbd

lemma mem_emittedRecord_trace {r : Payload} {rec : List (String × JVal)}
    (h : emittedRecord r = some rec) {k : String} {v : ℚ}
    (hm : (k, JVal.num v) ∈ rec) (hkb : k ≠ r.base) :
    ∃ v₀, (k, v₀) ∈ r.rates ∧ v = round2 v₀ := by
  obtain ⟨ts, rfl⟩ := emittedRecord_some_elim h
  rcases mem_of_mem_dictInsert hm with hm1 | hm1
  · rcases mem_of_mem_dictInsert hm1 with hm2 | hm2
    · rw [List.mem_map] at hm2
      obtain ⟨q, hq, hqe⟩ := hm2
      have hk : q.1 = k := congrArg Prod.fst hqe
      have hv : JVal.num q.2 = JVal.num v := congrArg Prod.snd hqe
      injection hv with hv
      have := mem_sortRates hq
      rw [hk, hv] at this
      exact this
    · exact absurd (congrArg Prod.fst hm2) hkb
  · exact absurd (congrArg Prod.snd hm1) (by simp)

lemma emittedRecord_rates_pairwise {r : Payload} {rec : List (String × JVal)}
    (h : emittedRecord r = some rec) :
    List.Pairwise (· ≤ ·)
      ((rec.filter (fun p => !(p.1 == r.base) && !(p.1 == "date"))).filterMap numOf) := by
  obtain ⟨ts, rfl⟩ := emittedRecord_some_elim h
  rw [filter_dictInsert (by intro p hp; simp [hp]),
    filter_dictInsert (by intro p hp; simp [hp])]
  have hsub : ((((sortRates r.rates).map (fun p => (p.1, JVal.num p.2))).filter
      (fun p => !(p.1 == r.base) && !(p.1 == "date"))).filterMap numOf).Sublist
      ((((sortRates r.rates).map (fun p => (p.1, JVal.num p.2)))).filterMap numOf) :=
    List.Sublist.filterMap _ (List.filter_sublist _)
  refine List.Pairwise.sublist hsub ?_
  rw [List.filterMap_map]
  have he : (numOf ∘ fun p : String × ℚ => (p.1, JVal.num p.2)) = some ∘ Prod.snd := rfl
  rw [he, List.filterMap_eq_map]
  exact List.Pairwise.map _ (fun a b hab => hab) (sortRates_pairwise r.rates)

lemma do_sync_first_schemaE {base key : String} {start now : Date} {fetch : String → Fetch}
    {p : Payload} (hk : key ≠ "") (hle : start.toDays ≤ now.toDays)
    (hf : fetch (mkUrl start base) = .response 200 (some p)) :
    (do_sync base start now (some key) fetch).events.head? =
      some (Event.schemaE (updateProps schemaInit ((sortRates p.rates).map Prod.fst))) := by
  rw [do_sync_some_key hk, fuelFor_succ hle]
  unfold syncLoopAux
  rw [if_pos hle]
  simp only [hf]
  rw [if_neg (by simp : ¬ (200 ≠ 200))]
  have hch : schemaChanged none (updateProps schemaInit ((sortRates p.rates).map Prod.fst)) =
      true := rfl
  split <;> simp [hch]

/-- C1 counterexample: the claim says a run resumed from the checkpoint
of a prior successful run begins strictly at checkpoint plus one day and
refetches no already-replicated day.  Concretely: a successful run over
2024-01-01..2024-01-02 persists start_date 2024-01-02, and a run loaded
with that checkpoint issues its first GET again for 2024-01-02, a URL
the prior run already fetched. -/
theorem C1_counterexample_resume_refetches_last_day :
    finalState (do_sync "USD" ⟨2024, 1, 1⟩ ⟨2024, 1, 2⟩ (some "k") fetchOkEx).events =
      some "2024-01-02" ∧
    (do_sync "USD" ⟨2024, 1, 2⟩ ⟨2024, 1, 2⟩ (some "k") fetchOkEx).urls.head? =
      some (mkUrl ⟨2024, 1, 2⟩ "USD") ∧
    mkUrl ⟨2024, 1, 2⟩ "USD" ∈
      (do_sync "USD" ⟨2024, 1, 1⟩ ⟨2024, 1, 2⟩ (some "k") fetchOkEx).urls := by
  refine ⟨by decide, by decide, by decide⟩

/-- C1 amended: a normally completing run persists as checkpoint the
last day its loop fetched (not that day plus one), and a subsequent run
loaded with that checkpoint starts its loop at the checkpoint day
itself, so the last replicated day is fetched again. -/
theorem C1_amended_resume_starts_at_checkpoint
    (base key key₂ : String) (start now now₂ : Date) (fetch fetch₂ : String → Fetch)
    (hk : key ≠ "")
    (h1 : (do_sync base start now (some key) fetch).outcome = some Exit.normal)
    (hne : (do_sync base start now (some key) fetch).urls ≠ []) :
    ∃ d : Date,
      finalState (do_sync base start now (some key) fetch).events =
        some (Date.format d) ∧
      (do_sync base start now (some key) fetch).urls.getLast? = some (mkUrl d base) ∧
      (key₂ ≠ "" → d.toDays ≤ now₂.toDays →
        (do_sync base d now₂ (some key₂) fetch₂).urls.head? = some (mkUrl d base)) := by
  have h1' : do_sync base start now (some key) fetch =
      ⟨(do_sync base start now (some key) fetch).urls,
        (do_sync base start now (some key) fetch).events, some Exit.normal⟩ := by
    rw [← h1]
  rw [do_sync_some_key hk] at h1' hne ⊢
  rcases syncLoop_normal_lastState _ _ _ _ _ _ _ h1' with ⟨hu, _⟩ | ⟨d, _, hlast, hfs⟩
  · exact absurd hu hne
  · exact ⟨d, hfs, hlast, fun hk2 hle2 => do_sync_urls_head hk2 hle2⟩

/-- Witness for C1_amended_resume_starts_at_checkpoint at a concrete
two-day run. -/
theorem C1_amended_resume_starts_at_checkpoint_witness :
    ∃ d : Date,
      finalState (do_sync "USD" ⟨2024, 1, 1⟩ ⟨2024, 1, 2⟩ (some "k") fetchOkEx).events =
        some (Date.format d) ∧
      (do_sync "USD" ⟨2024, 1, 1⟩ ⟨2024, 1, 2⟩ (some "k") fetchOkEx).urls.getLast? =
        some (mkUrl d "USD") ∧
      ("k" ≠ "" → d.toDays ≤ (Date.mk 2024 1 2).toDays →
        (do_sync "USD" d ⟨2024, 1, 2⟩ (some "k") fetchOkEx).urls.head? =
          some (mkUrl d "USD")) :=
  C1_amended_resume_starts_at_checkpoint "USD" "k" "k" ⟨2024, 1, 1⟩ ⟨2024, 1, 2⟩
    ⟨2024, 1, 2⟩ fetchOkEx fetchOkEx (by decide) (by decide) (by decide)

/-- C2 counterexample: the claim says every fatal provider failure,
including any non-200 response, persists the checkpoint before the
failure exit.  Concretely: a 404 response makes the run exit with code 1
having written no state event at all. -/
theorem C2_counterexample_non200_exits_without_state :
    do_sync "USD" ⟨2024, 1, 1⟩ ⟨2024, 1, 1⟩ (some "k") fetch404 =
      ⟨[mkUrl ⟨2024, 1, 1⟩ "USD"], [], some (.exitCode 1)⟩ ∧
    finalState (do_sync "USD" ⟨2024, 1, 1⟩ ⟨2024, 1, 1⟩ (some "k") fetch404).events =
      none := by
  exact ⟨by decide, by decide⟩

/-- C2 amended: the checkpoint is persisted before a failure exit only
on the caught-RequestException path and only when the exception carries
a response object; a non-200 HTTP response exits with code 1 without
persisting anything, and a response-less RequestException dies inside
the handler's logging line before the state write. -/
theorem C2_amended_state_persisted_only_on_caught_exception
    (base key : String) (start now : Date) (fetch : String → Fetch) (s : Nat) (p : Payload)
    (hk : key ≠ "") (hle : start.toDays ≤ now.toDays) :
    (fetch (mkUrl start base) = .raisedWithResponse s →
      do_sync base start now (some key) fetch =
        ⟨[mkUrl start base], [.stateE (Date.format start)], some (.exitCode (-1))⟩) ∧
    (fetch (mkUrl start base) = .response s (some p) → s ≠ 200 →
      do_sync base start now (some key) fetch =
        ⟨[mkUrl start base], [], some (.exitCode 1)⟩) ∧
    (fetch (mkUrl start base) = .raisedNoResponse →
      do_sync base start now (some key) fetch =
        ⟨[mkUrl start base], [], some (.uncaught .attrNone)⟩) :=
  ⟨fun hf => do_sync_raisedResp hk hle hf,
   fun hf hs => do_sync_non200 hk hle hf hs,
   fun hf => do_sync_noResp hk hle hf⟩

/-- Witness for C2_amended_state_persisted_only_on_caught_exception with
a RequestException carrying a response on the first day. -/
theorem C2_amended_state_persisted_only_on_caught_exception_witness :
    (fetchRaisedResp (mkUrl ⟨2024, 1, 1⟩ "USD") = .raisedWithResponse 500 →
      do_sync "USD" ⟨2024, 1, 1⟩ ⟨2024, 1, 1⟩ (some "k") fetchRaisedResp =
        ⟨[mkUrl ⟨2024, 1, 1⟩ "USD"], [.stateE (Date.format ⟨2024, 1, 1⟩)],
          some (.exitCode (-1))⟩) ∧
    (fetchRaisedResp (mkUrl ⟨2024, 1, 1⟩ "USD") = .response 500 (some examplePayload) →
      (500 : Nat) ≠ 200 →
      do_sync "USD" ⟨2024, 1, 1⟩ ⟨2024, 1, 1⟩ (some "k") fetchRaisedResp =
        ⟨[mkUrl ⟨2024, 1, 1⟩ "USD"], [], some (.exitCode 1)⟩) ∧
    (fetchRaisedResp (mkUrl ⟨2024, 1, 1⟩ "USD") = .raisedNoResponse →
      do_sync "USD" ⟨2024, 1, 1⟩ ⟨2024, 1, 1⟩ (some "k") fetchRaisedResp =
        ⟨[mkUrl ⟨2024, 1, 1⟩ "USD"], [], some (.uncaught .attrNone)⟩) :=
  C2_amended_state_persisted_only_on_caught_exception "USD" "k" ⟨2024, 1, 1⟩ ⟨2024, 1, 1⟩
    fetchRaisedResp 500 examplePayload (by decide) (by decide)

/-- C3 counterexample: the claim says a transient failure such as a 503
is retried with backoff up to 5 total attempts before the run fails.
Concretely: a 503 day is fetched exactly once (one GET URL), and the run
exits immediately with code 1 through the non-200 check - not through
the retrying client's exhaustion path. -/
theorem C3_counterexample_503_not_retried :
    do_sync "USD" ⟨2024, 1, 1⟩ ⟨2024, 1, 1⟩ (some "k") fetch503 =
      ⟨[mkUrl ⟨2024, 1, 1⟩ "USD"], [], some (.exitCode 1)⟩ ∧
    (do_sync "USD" ⟨2024, 1, 1⟩ ⟨2024, 1, 1⟩ (some "k") fetch503).urls.length = 1 := by
  exact ⟨by decide, by decide⟩

/-- C3 amended: the loop's FETCH is a bare single-attempt GET: any
non-200 response, including the transient 429 and 5xx statuses, ends the
whole run after exactly one attempt with exit code 1.  The retrying
request client exists in the module but the loop never calls it. -/
theorem C3_amended_fetch_is_single_attempt
    (base key : String) (start now : Date) (fetch : String → Fetch) (s : Nat) (p : Payload)
    (hk : key ≠ "") (hle : start.toDays ≤ now.toDays)
    (hf : fetch (mkUrl start base) = .response s (some p)) (hs : s ≠ 200) :
    do_sync base start now (some key) fetch =
      ⟨[mkUrl start base], [], some (.exitCode 1)⟩ ∧
    (do_sync base start now (some key) fetch).urls.length = 1 := by
  have h := do_sync_non200 hk hle hf hs
  exact ⟨h, by rw [h]; rfl⟩

/-- Witness for C3_amended_fetch_is_single_attempt at a 503 day. -/
theorem C3_amended_fetch_is_single_attempt_witness :
    do_sync "USD" ⟨2024, 1, 1⟩ ⟨2024, 1, 1⟩ (some "k") fetch503 =
      ⟨[mkUrl ⟨2024, 1, 1⟩ "USD"], [], some (.exitCode 1)⟩ ∧
    (do_sync "USD" ⟨2024, 1, 1⟩ ⟨2024, 1, 1⟩ (some "k") fetch503).urls.length = 1 :=
  C3_amended_fetch_is_single_attempt "USD" "k" ⟨2024, 1, 1⟩ ⟨2024, 1, 1⟩ fetch503 503
    examplePayload (by decide) (by decide) (by decide) (by decide)

/-- C4: the giveup classifier stops retrying exactly when the status is
neither 429 nor at least 500; a call answered 503 (or any 5xx, or 429)
on every attempt is attempted exactly 5 times before the failure
surfaces, while a call answered 404 (or any other non-429 4xx) fails
after exactly one attempt. -/
theorem C4_retry_classifier_and_bound :
    (∀ s : Nat, giveup s = true ↔ ¬ (s = 429 ∨ 500 ≤ s)) ∧
    request (fun _ => 503) = (5, false) ∧
    (∀ s : Nat, 500 ≤ s ∨ s = 429 → request (fun _ => s) = (5, false)) ∧
    request (fun _ => 404) = (1, false) ∧
    (∀ s : Nat, 400 ≤ s → s < 500 → s ≠ 429 → request (fun _ => s) = (1, false)) := by
  have hgiveup : ∀ s : Nat, giveup s = true ↔ ¬ (s = 429 ∨ 500 ≤ s) := by
    intro s
    unfold giveup
    rcases Nat.lt_or_ge s 500 with h5 | h5
    · by_cases h9 : s = 429
      · simp [h9]
      · simp [h9, Nat.not_le_of_lt h5]
        try omega
    · simp [h5]
      try omega
  refine ⟨hgiveup, by decide, ?_, by decide, ?_⟩
  · intro s hs
    have hlt : ¬ (s < 400) := by omega
    have hg : giveup s = false := by
      cases hgv : giveup s
      · rfl
      · exact absurd ((hgiveup s).mp hgv) (by omega)
    show backoffGo giveup (fun _ => s) 1 4 = (5, false)
    rw [backoffGo, if_neg hlt, if_neg (by rw [hg]; exact Bool.false_ne_true)]
    rw [backoffGo, if_neg hlt, if_neg (by rw [hg]; exact Bool.false_ne_true)]
    rw [backoffGo, if_neg hlt, if_neg (by rw [hg]; exact Bool.false_ne_true)]
    rw [backoffGo, if_neg hlt, if_neg (by rw [hg]; exact Bool.false_ne_true)]
    rw [backoffGo, if_neg hlt, if_neg (by rw [hg]; exact Bool.false_ne_true)]
  · intro s h4 h5 h9
    have hlt : ¬ (s < 400) := by omega
    have hg : giveup s = true := (hgiveup s).mpr (by omega)
    show backoffGo giveup (fun _ => s) 1 4 = (1, false)
    rw [backoffGo, if_neg hlt, if_pos (by rw [hg])]

/-- Witness for the hypothesis-bearing conjuncts of
C4_retry_classifier_and_bound, evaluated at 503 and 404. -/
theorem C4_retry_classifier_and_bound_witness :
    request (fun _ => 503) = (5, false) ∧ request (fun _ => 404) = (1, false) :=
  ⟨C4_retry_classifier_and_bound.2.2.1 503 (by decide),
   C4_retry_classifier_and_bound.2.2.2.2 404 (by decide) (by decide) (by decide)⟩

/-- C5 counterexample: the claim says the missing-api-key exit status is
distinct from the fatal-provider-error exit status.  Concretely: a run
without an api key exits with code 1 before issuing any GET, and a run
hitting a 404 also exits with code 1 - the same status. -/
theorem C5_counterexample_same_exit_status :
    (do_sync "USD" ⟨2024, 1, 1⟩ ⟨2024, 1, 1⟩ none fetchOkEx).outcome =
      some (.exitCode 1) ∧
    (do_sync "USD" ⟨2024, 1, 1⟩ ⟨2024, 1, 1⟩ none fetchOkEx).urls = [] ∧
    (do_sync "USD" ⟨2024, 1, 1⟩ ⟨2024, 1, 1⟩ (some "k") fetch404).outcome =
      some (.exitCode 1) := by
  exact ⟨by decide, by decide, by decide⟩

/-- C5 amended: a missing (or empty) api key terminates the run with
exit code 1 before any GET is issued; this equals the exit code used for
a non-200 provider response, and only the network-failure path uses a
different code, -1. -/
theorem C5_amended_exit_statuses
    (base key : String) (start now : Date) (fetch fetch₂ fetch₃ : String → Fetch)
    (s s₂ : Nat) (p : Payload) (hk : key ≠ "") (hle : start.toDays ≤ now.toDays) :
    do_sync base start now none fetch = ⟨[], [], some (.exitCode 1)⟩ ∧
    do_sync base start now (some "") fetch = ⟨[], [], some (.exitCode 1)⟩ ∧
    (fetch₂ (mkUrl start base) = .response s (some p) → s ≠ 200 →
      (do_sync base start now (some key) fetch₂).outcome = some (.exitCode 1)) ∧
    (fetch₃ (mkUrl start base) = .raisedWithResponse s₂ →
      (do_sync base start now (some key) fetch₃).outcome = some (.exitCode (-1))) := by
  refine ⟨do_sync_no_key base start now fetch, do_sync_empty_key base start now fetch,
    fun hf hs => ?_, fun hf => ?_⟩
  · rw [do_sync_non200 hk hle hf hs]
  · rw [do_sync_raisedResp hk hle hf]

/-- Witness for C5_amended_exit_statuses at concrete oracles. -/
theorem C5_amended_exit_statuses_witness :
    do_sync "USD" ⟨2024, 1, 1⟩ ⟨2024, 1, 1⟩ none fetchOkEx =
      ⟨[], [], some (.exitCode 1)⟩ ∧
    do_sync "USD" ⟨2024, 1, 1⟩ ⟨2024, 1, 1⟩ (some "") fetchOkEx =
      ⟨[], [], some (.exitCode 1)⟩ ∧
    (fetch404 (mkUrl ⟨2024, 1, 1⟩ "USD") = .response 404 (some examplePayload) →
      (404 : Nat) ≠ 200 →
      (do_sync "USD" ⟨2024, 1, 1⟩ ⟨2024, 1, 1⟩ (some "k") fetch404).outcome =
        some (.exitCode 1)) ∧
    (fetchRaisedResp (mkUrl ⟨2024, 1, 1⟩ "USD") = .raisedWithResponse 500 →
      (do_sync "USD" ⟨2024, 1, 1⟩ ⟨2024, 1, 1⟩ (some "k") fetchRaisedResp).outcome =
        some (.exitCode (-1))) :=
  C5_amended_exit_statuses "USD" "k" ⟨2024, 1, 1⟩ ⟨2024, 1, 1⟩ fetchOkEx fetch404
    fetchRaisedResp 404 500 examplePayload (by decide) (by decide)

/-- C6 counterexample: the claim says the rate entries of an emitted
record, the base currency included, appear in non-decreasing order by
value.  Concretely: the record emitted for the example payload carries
the rate values 1.1, 160.56, 1.0 in that order - the base currency entry
EUR at 1.0 is appended after the larger JPY rate. -/
theorem C6_counterexample_base_breaks_order :
    recordsOf (do_sync "EUR" ⟨2024, 1, 1⟩ ⟨2024, 1, 1⟩ (some "k") fetchOkEx).events =
      [exampleRecord] ∧
    ¬ List.Pairwise (· ≤ ·)
        ((exampleRecord.filter (fun p => !(p.1 == "date"))).filterMap numOf) := by
  exact ⟨by decide, by decide⟩

/-- C6 amended: in every emitted record the base currency maps to
exactly 1, every other currency entry is the provider rate rounded to
two decimal places, and the non-base rate entries appear in
non-decreasing order by value; the base currency entry itself is placed
after them (or overwritten in place), so the order property holds only
with the base entry excluded. -/
theorem C6_amended_normalization (r : Payload) (rec : List (String × JVal))
    (hbd : r.base ≠ "date") (h : emittedRecord r = some rec) :
    (r.base, JVal.num 1) ∈ rec ∧
    (∀ k v, (k, JVal.num v) ∈ rec → k ≠ r.base →
      ∃ v₀, (k, v₀) ∈ r.rates ∧ v = round2 v₀) ∧
    List.Pairwise (· ≤ ·)
      ((rec.filter (fun p => !(p.1 == r.base) && !(p.1 == "date"))).filterMap numOf) :=
  ⟨mem_base_emittedRecord h hbd,
   fun _ _ hm hkb => mem_emittedRecord_trace h hm hkb,
   emittedRecord_rates_pairwise h⟩

/-- Witness for C6_amended_normalization at the example payload. -/
theorem C6_amended_normalization_witness :
    ("EUR", JVal.num 1) ∈ exampleRecord ∧
    (∀ k v, (k, JVal.num v) ∈ exampleRecord → k ≠ "EUR" →
      ∃ v₀, (k, v₀) ∈ examplePayload.rates ∧ v = round2 v₀) ∧
    List.Pairwise (· ≤ ·)
      ((exampleRecord.filter (fun p => !(p.1 == "EUR") && !(p.1 == "date"))).filterMap
        numOf) :=
  C6_amended_normalization examplePayload exampleRecord (by decide) (by decide)

/-- C7: with base EUR and start 2024-01-01, a provider answer of USD 1.1
and JPY 160.555 for that day yields exactly one emitted record, equal as
a key-value map to the record the spec example expects - in particular
JPY rounds to 160.56 - and, with now equal to 2024-01-01, the final
persisted state is start_date 2024-01-01. -/
theorem C7_example_record_and_state :
    recordsOf (do_sync "EUR" ⟨2024, 1, 1⟩ ⟨2024, 1, 1⟩ (some "key") fetchOkEx).events =
      [exampleRecord] ∧
    exampleRecord.Perm claimedRecord ∧
    finalState (do_sync "EUR" ⟨2024, 1, 1⟩ ⟨2024, 1, 1⟩ (some "key") fetchOkEx).events =
      some "2024-01-01" := by
  refine ⟨by decide, ?_, by decide⟩
  have h1 : (1.1 : ℚ) = mkRat 11 10 := by
    rw [Rat.mkRat_eq_div]
    norm_num
  have h2 : (160.56 : ℚ) = mkRat 16056 100 := by
    rw [Rat.mkRat_eq_div]
    norm_num
  have h3 : (1.0 : ℚ) = 1 := by norm_num
  unfold claimedRecord exampleRecord
  rw [h1, h2, h3]
  decide

/-- C8: the schema declaration decision of the loop: against the initial
empty prev_schema the schema is always re-announced (the very first
iteration), and against the snapshot taken at the end of the previous
iteration it is re-announced exactly when the day's rates contain at
least one key that is not yet a schema property; moreover in any run
whose first day is fetched with status 200, the very first output event
is the schema declaration. -/
theorem C8_schema_reannouncement
    (base key : String) (start now : Date) (fetch : String → Fetch) (p : Payload)
    (hk : key ≠ "") (hle : start.toDays ≤ now.toDays)
    (hf : fetch (mkUrl start base) = .response 200 (some p)) :
    (∀ props keys : List String, schemaChanged none (updateProps props keys) = true) ∧
    (∀ props keys : List String,
      schemaChanged (some props) (updateProps props keys) = true ↔
        ∃ k ∈ keys, k ∉ props) ∧
    (do_sync base start now (some key) fetch).events.head? =
      some (Event.schemaE (updateProps schemaInit ((sortRates p.rates).map Prod.fst))) :=
  ⟨fun _ _ => rfl, fun _ _ => schemaChanged_some_iff, do_sync_first_schemaE hk hle hf⟩

/-- Witness for C8_schema_reannouncement at the example run. -/
theorem C8_schema_reannouncement_witness :
    (∀ props keys : List String, schemaChanged none (updateProps props keys) = true) ∧
    (∀ props keys : List String,
      schemaChanged (some props) (updateProps props keys) = true ↔
        ∃ k ∈ keys, k ∉ props) ∧
    (do_sync "EUR" ⟨2024, 1, 1⟩ ⟨2024, 1, 1⟩ (some "k") fetchOkEx).events.head? =
      some (Event.schemaE
        (updateProps schemaInit ((sortRates examplePayload.rates).map Prod.fst))) :=
  C8_schema_reannouncement "EUR" "k" ⟨2024, 1, 1⟩ ⟨2024, 1, 1⟩ fetchOkEx examplePayload
    (by decide) (by decide) (by decide)

/-- C9: schema growth is monotone: the property keys present before a
day's update loop are all still present after it, and over any sequence
of processed days the key set after day N contains the key set after day
N-1 - no currency field is ever removed. -/
theorem C9_schema_monotone_growth :
    (∀ props keys : List String, props ⊆ updateProps props keys) ∧
    (∀ (init : List String) (days : List (List String)) (d : List String),
      schemaAfterDays init days ⊆ schemaAfterDays init (days ++ [d])) := by
  refine ⟨subset_updateProps, fun init days d => ?_⟩
  rw [schemaAfterDays_append]
  exact subset_updateProps _ _

/-- C10: the loop decodes the response body before checking the HTTP
status, so a response whose body is not valid JSON kills the run with an
uncaught decode error: no state event is written, and the exit is
neither the clean non-200 exit code 1 nor the handler's code -1. -/
theorem C10_decode_before_status_check
    (base key : String) (start now : Date) (fetch : String → Fetch) (s : Nat)
    (hk : key ≠ "") (hle : start.toDays ≤ now.toDays)
    (hf : fetch (mkUrl start base) = .response s none) :
    do_sync base start now (some key) fetch =
      ⟨[mkUrl start base], [], some (.uncaught .jsonDecode)⟩ ∧
    finalState (do_sync base start now (some key) fetch).events = none ∧
    (do_sync base start now (some key) fetch).outcome ≠ some (.exitCode 1) ∧
    (do_sync base start now (some key) fetch).outcome ≠ some (.exitCode (-1)) := by
  have h := do_sync_badBody hk hle hf
  refine ⟨h, ?_, ?_, ?_⟩ <;> rw [h] <;> simp [finalState]

/-- Witness for C10_decode_before_status_check with a 500 response whose
body does not decode. -/
theorem C10_decode_before_status_check_witness :
    do_sync "USD" ⟨2024, 1, 1⟩ ⟨2024, 1, 1⟩ (some "k") fetchBadBody =
      ⟨[mkUrl ⟨2024, 1, 1⟩ "USD"], [], some (.uncaught .jsonDecode)⟩ ∧
    finalState (do_sync "USD" ⟨2024, 1, 1⟩ ⟨2024, 1, 1⟩ (some "k") fetchBadBody).events =
      none ∧
    (do_sync "USD" ⟨2024, 1, 1⟩ ⟨2024, 1, 1⟩ (some "k") fetchBadBody).outcome ≠
      some (.exitCode 1) ∧
    (do_sync "USD" ⟨2024, 1, 1⟩ ⟨2024, 1, 1⟩ (some "k") fetchBadBody).outcome ≠
      some (.exitCode (-1)) :=
  C10_decode_before_status_check "USD" "k" ⟨2024, 1, 1⟩ ⟨2024, 1, 1⟩ fetchBadBody 500
    (by decide) (by decide) (by decide)

lemma daysInMonth_pos (y m : Nat) : 1 ≤ daysInMonth y m := by
  unfold daysInMonth
  split
  · split <;> omega
  · split <;> omega

lemma daysInMonth_le_31 (y m : Nat) : daysInMonth y m ≤ 31 := by
  unfold daysInMonth
  split
  · split <;> omega
  · split <;> omega

lemma Valid_next {d : Date} (h : d.Valid) : d.next.Valid := by
  obtain ⟨hy, h1, h2, h3, h4⟩ := h
  unfold Date.next
  split
  · rename_i hlt
    exact ⟨hy, h1, h2, Nat.succ_le_succ (Nat.zero_le _), hlt⟩
  · split
    · rename_i hm
      exact ⟨hy, Nat.succ_le_succ (Nat.zero_le _), hm, le_refl 1, daysInMonth_pos _ _⟩
    · exact ⟨Nat.le_succ_of_le hy, le_refl 1, show (1 : Nat) ≤ 12 by omega, le_refl 1,
        daysInMonth_pos _ _⟩

lemma monthDaysUpTo_12 (y : Nat) : monthDaysUpTo y 12 = 365 + (if isLeap y then 1 else 0) := by
  cases h : isLeap y <;> simp [monthDaysUpTo, daysInMonth, h]

lemma leapsUpTo_succ {y : Nat} (hy : 1 ≤ y) :
    leapsUpTo y = leapsUpTo (y - 1) + (if isLeap y then 1 else 0) := by
  obtain ⟨k, rfl⟩ : ∃ k, y = k + 1 := ⟨y - 1, by omega⟩
  unfold leapsUpTo isLeap
  simp only [Nat.add_sub_cancel]
  split
  · rename_i hc
    rw [Bool.or_eq_true, Bool.and_eq_true, beq_iff_eq, bne_iff_ne, beq_iff_eq] at hc
    omega
  · rename_i hc
    rw [Bool.or_eq_true, Bool.and_eq_true, beq_iff_eq, bne_iff_ne, beq_iff_eq] at hc
    push_neg at hc
    rcases Nat.decEq ((k + 1) % 4) 0 with h4 | h4
    · omega
    · omega

lemma monthDaysUpTo_pred {y m : Nat} (hm : 1 ≤ m) :
    monthDaysUpTo y m = monthDaysUpTo y (m - 1) + daysInMonth y m := by
  obtain ⟨k, rfl⟩ : ∃ k, m = k + 1 := ⟨m - 1, by omega⟩
  simp only [Nat.add_sub_cancel]
  rfl

lemma toDays_next {d : Date} (h : d.Valid) : d.next.toDays = d.toDays + 1 := by
  obtain ⟨hy, h1, h2, h3, h4⟩ := h
  unfold Date.next
  split
  · rename_i hlt
    show 365 * (d.year - 1) + leapsUpTo (d.year - 1) + monthDaysUpTo d.year (d.month - 1) +
        (d.day + 1) =
      365 * (d.year - 1) + leapsUpTo (d.year - 1) + monthDaysUpTo d.year (d.month - 1) +
        d.day + 1
    omega
  · rename_i hge
    split
    · rename_i hm
      show 365 * (d.year - 1) + leapsUpTo (d.year - 1) +
          monthDaysUpTo d.year (d.month + 1 - 1) + 1 =
        365 * (d.year - 1) + leapsUpTo (d.year - 1) + monthDaysUpTo d.year (d.month - 1) +
          d.day + 1
      simp only [Nat.add_sub_cancel]
      rw [monthDaysUpTo_pred h1]
      omega
    · rename_i hm
      have hm12 : d.month = 12 := by omega
      have hdim : daysInMonth d.year d.month = 31 := by
        rw [hm12]
        rfl
      have hday : d.day = 31 := by omega
      show 365 * (d.year + 1 - 1) + leapsUpTo (d.year + 1 - 1) +
          monthDaysUpTo (d.year + 1) (1 - 1) + 1 =
        365 * (d.year - 1) + leapsUpTo (d.year - 1) + monthDaysUpTo d.year (d.month - 1) +
          d.day + 1
      rw [hm12, hday]
      simp only [Nat.add_sub_cancel]
      have hup0 : monthDaysUpTo (d.year + 1) (1 - 1) = 0 := rfl
      have h11 : monthDaysUpTo d.year 12 = monthDaysUpTo d.year (12 - 1) +
          daysInMonth d.year 12 := rfl
      have h31 : daysInMonth d.year 12 = 31 := rfl
      have h12 := monthDaysUpTo_12 d.year
      have hls := leapsUpTo_succ hy
      cases hlp : isLeap d.year <;> simp [hlp] at h12 hls <;> omega

lemma syncLoop_completes {base : String} {fetch : String → Fetch} {now : Date} :
    ∀ (fuel : Nat) (cur : Date) (props : List String) (prev : Option (List String))
      (st : String), cur.Valid →
      (now.toDays + 1 ≤ cur.toDays + fuel ∨ now.toDays < cur.toDays) →
      (syncLoopAux base fetch now fuel cur props prev st).outcome ≠ none := by
  intro fuel
  induction fuel with
  | zero =>
    intro cur props prev st hv hf
    unfold syncLoopAux
    split
    · rename_i hle
      rcases hf with hf | hf <;> omega
    · simp
  | succ n ih =>
    intro cur props prev st hv hf
    unfold syncLoopAux
    split
    · rename_i hle
      cases hfr : fetch (mkUrl cur base) with
      | raisedNoResponse => simp [hfr]
      | raisedWithResponse s => simp [hfr]
      | response s b =>
        cases b with
        | none => simp [hfr]
        | some payload =>
          by_cases hs : s ≠ 200
          · simp only [hfr]
            rw [if_pos hs]
            simp
          · simp only [hfr]
            rw [if_neg hs]
            split
            · simp
            · show (syncLoopAux base fetch now n cur.next
                  (updateProps props ((sortRates payload.rates).map Prod.fst))
                  (some (updateProps props ((sortRates payload.rates).map Prod.fst)))
                  (Date.format cur)).outcome ≠ none
              refine ih _ _ _ _ (Valid_next hv) ?_
              rw [toDays_next hv]
              rcases hf with hf | hf <;> omega
    · simp

/-- For every valid start date the loop model runs to an actual outcome:
the step budget fuelFor can never be exhausted, so the model covers the
whole Python loop. -/
theorem do_sync_completes (base : String) (start now : Date) (key : Option String)
    (fetch : String → Fetch) (hv : start.Valid) :
    (do_sync base start now key fetch).outcome ≠ none := by
  unfold do_sync
  split
  · simp
  · refine syncLoop_completes _ _ _ _ _ hv ?_
    unfold fuelFor
    omega

end Tap
